import Mathlib

/-!
# EggPI file byte I/O (`bhrpg_io.c`, `bhrpg_io.h`)

A shallow embedding of the five exported functions of the module

* `InitCallbacks`  (bhrpg_io.c, lines 4-21)
* `SaveBytes`      (bhrpg_io.c, lines 23-37)
* `LoadBytes`      (bhrpg_io.c, lines 39-58)
* `BHRPGIO_Malloc` (bhrpg_io.c, lines 60-71)
* `BHRPGIO_Free`   (bhrpg_io.c, lines 73-77)

over an explicit program state: the static `callbacks` structure, a file
system, a byte heap, `int` objects and the list of indirect calls made
through the three slots.  The C library (stdio) and the code behind the
function pointers are not part of the module; the former is modelled by the
definitions of the section "stdio" (streams are fully buffered, as `fopen`
gives them), the latter is a parameter (`Env`).
-/

namespace BhrpgIo

/-! ## Data model -/

/-- One byte of a file or of a buffer. -/
abbrev Byte := Fin 256

/-- An object pointer (`void*`, `int*`); the value 0 is the null pointer. -/
abbrev Ptr := Nat

/-- The null pointer of C. -/
def NULL : Ptr := 0

/-- A file name (`char* path`). -/
abbrev Path := String

/-- A function pointer as stored in a slot of `BHRPGIO_Callbacks`: null, one of
the three C library functions named in the static initialiser, or code of the
host application. -/
inductive FnPtr where
  | null
  | malloc
  | free
  | abort
  | host (id : Nat)
  deriving DecidableEq, Repr

/-- The structure `BHRPGIO_Callbacks` of bhrpg_io.h, lines 7-12. -/
structure BHRPGIO_Callbacks where
  Malloc : FnPtr
  Free : FnPtr
  NoMem : FnPtr
  deriving DecidableEq, Repr

/-- The initial value of the static `callbacks` (bhrpg_io.h, line 14):
`{ malloc, free, abort }`. -/
def callbacks : BHRPGIO_Callbacks :=
  { Malloc := FnPtr.malloc, Free := FnPtr.free, NoMem := FnPtr.abort }

/-- An indirect call executed by the module through one of the three slots:
the function pointer that was called and the arguments it was given. -/
inductive Event where
  | Malloc (fn : FnPtr) (size : Nat)
  | Free (fn : FnPtr) (memory : Ptr)
  | NoMem (fn : FnPtr)
  deriving DecidableEq, Repr

/-- The byte heap: the allocated blocks, by base address. -/
abbrev Heap := Ptr → Option (List Byte)

/-- The program state.
* `callbacks`: the current value of the static of bhrpg_io.h, line 14;
* `files`: the contents of the files that exist;
* `writable`: whether `fopen(path, "wb")` succeeds on a path;
* `capacity`: how many bytes the platform lets the file at a path hold (the
  platform takes bytes written past that length only up to it);
* `bufsize`: the size of the buffer a stream gets from `fopen` (the module never
  calls `setvbuf`);
* `heap`: the allocated byte blocks;
* `ints`: the `int` objects (the targets of `int*` pointers);
* `trace`: the indirect calls made so far, oldest first. -/
structure World where
  callbacks : BHRPGIO_Callbacks
  files : Path → Option (List Byte)
  writable : Path → Bool
  capacity : Path → Nat
  bufsize : Nat
  heap : Heap
  ints : Ptr → Option Int
  trace : List Event

/-- The code behind the function pointers. A call acts on the heap; `none`
means that control does not come back to the caller (the callee terminates
the process or unwinds past the caller). The callee does not re-enter this
module and does not touch the files. -/
structure Env where
  Malloc : FnPtr → Nat → Heap → Option (Ptr × Heap)
  Free : FnPtr → Ptr → Heap → Option Heap
  NoMem : FnPtr → Heap → Option Heap

/-- How a call ends: it returns a value, it never returns, or it runs into
undefined behaviour of C. The state reached is kept in each case. -/
inductive Outcome (α : Type) where
  | ret (a : α) (w : World)
  | noreturn (w : World)
  | undefined (w : World)

/-- The state in which a call ended. -/
def Outcome.world {α : Type} : Outcome α → World
  | Outcome.ret _ w => w
  | Outcome.noreturn w => w
  | Outcome.undefined w => w

/-- The value returned, when the call returned. -/
def Outcome.value {α : Type} : Outcome α → Option α
  | Outcome.ret a _ => some a
  | Outcome.noreturn _ => none
  | Outcome.undefined _ => none

/-- A piece of C code: a function of the state. -/
def Prog (α : Type) : Type := World → Outcome α

/-- Sequencing of statements: the second runs only when the first returned. -/
def Prog.bind {α β : Type} (m : Prog α) (f : α → Prog β) : Prog β := fun w =>
  match m w with
  | Outcome.ret a w1 => f a w1
  | Outcome.noreturn w1 => Outcome.noreturn w1
  | Outcome.undefined w1 => Outcome.undefined w1

/-- A statement that only yields a value. -/
def Prog.pure {α : Type} (a : α) : Prog α := fun w => Outcome.ret a w

instance : Monad Prog where
  pure := Prog.pure
  bind := Prog.bind

/-! ## Integer conversions -/

/-- The largest `int` (32 bits). -/
def INT_MAX : Int := 2 ^ 31 - 1

/-- Conversion of an integer value to `int`: reduction modulo 2^32 into
the range -2^31 .. 2^31 - 1. -/
def to_int (x : Int) : Int := (x + 2 ^ 31) % 2 ^ 32 - 2 ^ 31

/-- Conversion of an `int` to `size_t` (64 bits): reduction modulo 2^64. -/
def to_size_t (x : Int) : Nat := (x % 2 ^ 64).toNat

/-! ## stdio -/

/-- The state of an open stream: the file it is attached to, the position in
the file up to which the platform has been read or written, and the bytes the
stream holds in its buffer and has not passed on to the platform yet. A `FILE*`
is an `Option FILE`, `none` being the null pointer. -/
structure FILE where
  path : Path
  pos : Nat
  pending : List Byte := []
  deriving DecidableEq, Repr

/-- The value `EOF` that `fclose` returns on failure. -/
def EOF : Int := -1

/-- The two modes the module opens files in. -/
inductive Mode where
  | rb
  | wb
  deriving DecidableEq, Repr

/-- The bytes of a file; a file that does not exist has none. -/
def World.contents (w : World) (path : Path) : List Byte :=
  (w.files path).getD []

/-- The state in which the file at `path` holds `bytes`. -/
def World.put_file (w : World) (path : Path) (bytes : List Byte) : World :=
  { w with files := Function.update w.files path (some bytes) }

/-- The platform write of `bytes` at position `pos` of the file at `path`: the
number of bytes the platform takes. -/
def World.takes (w : World) (path : Path) (pos : Nat) (bytes : List Byte) : Nat :=
  min bytes.length (w.capacity path - pos)

/-- The state after the platform write of `bytes` at position `pos` of the file
at `path`. -/
def World.platform_write (w : World) (path : Path) (pos : Nat) (bytes : List Byte) : World :=
  w.put_file path
    ((w.contents path).take pos ++ bytes.take (w.takes path pos bytes)
      ++ (w.contents path).drop (pos + w.takes path pos bytes))

/-- How many of `n` bytes held by a stream go to the platform at once: the whole
multiples of the buffer size (all of them on a stream without buffer). The
other bytes stay in the buffer. -/
def whole_blocks (bufsize n : Nat) : Nat :=
  if bufsize = 0 then n else n - n % bufsize

/-- Model of `fopen`. Mode "rb" succeeds exactly on an existing file and
changes nothing. Mode "wb" succeeds exactly on a writable path and creates
the file or truncates it to zero length. A failed open returns the null
pointer and changes nothing. -/
def fopen (path : Path) (mode : Mode) : Prog (Option FILE) := fun w =>
  match mode with
  | Mode.rb =>
    match w.files path with
    | some _ => Outcome.ret (some { path := path, pos := 0 }) w
    | none => Outcome.ret none w
  | Mode.wb =>
    if w.writable path then
      Outcome.ret (some { path := path, pos := 0 }) (w.put_file path [])
    else Outcome.ret none w

/-- Model of `fseek(fp, 0, SEEK_END)`: the position becomes the length of the
file. A null stream is undefined behaviour. -/
def fseek_END (fp : Option FILE) : Prog (Option FILE) := fun w =>
  match fp with
  | none => Outcome.undefined w
  | some f => Outcome.ret (some { f with pos := (w.contents f.path).length }) w

/-- Model of `ftell(fp)`, the file position as a `long` (taken wide enough for
every position). A null stream is undefined behaviour. -/
def ftell (fp : Option FILE) : Prog Int := fun w =>
  match fp with
  | none => Outcome.undefined w
  | some f => Outcome.ret ((f.pos + f.pending.length : Nat) : Int) w

/-- Model of `rewind(fp)`. A null stream is undefined behaviour. -/
def rewind (fp : Option FILE) : Prog (Option FILE) := fun w =>
  match fp with
  | none => Outcome.undefined w
  | some f => Outcome.ret (some { f with pos := 0 }) w

/-- Model of `fread(buf, 1, nmemb, fp)`: transfers the bytes from the file
position on, at most `nmemb` of them, to the block at `buf`, and returns their
number. Undefined behaviour on a null stream, and when bytes are to be
transferred and `buf` is null or is not a block with room for them. -/
def fread (buf : Ptr) (nmemb : Nat) (fp : Option FILE) : Prog (Nat × Option FILE) := fun w =>
  match fp with
  | none => Outcome.undefined w
  | some f =>
    let rest := (w.contents f.path).drop f.pos
    let k := min nmemb rest.length
    if k = 0 then Outcome.ret (0, some f) w
    else if buf = NULL then Outcome.undefined w
    else
      match w.heap buf with
      | none => Outcome.undefined w
      | some blk =>
        if k ≤ blk.length then
          Outcome.ret (k, some { f with pos := f.pos + k })
            { w with heap := Function.update w.heap buf (some (rest.take k ++ blk.drop k)) }
        else Outcome.undefined w

/-- Model of `fwrite(data, 1, nmemb, fp)` on the fully buffered stream that
`fopen` gives: `data` is the byte object the pointer refers to. The stream
holds the bytes of its buffer followed by the first `nmemb` bytes of `data`;
the whole multiples of the buffer size among them go to the platform at once,
the others stay in the buffer. When the platform takes all it is given, all
`nmemb` bytes count as written, the buffered ones included; when it does not,
the count is that of the bytes of `data` the platform took. Undefined behaviour
on a null stream and when `nmemb` exceeds the size of the object. -/
def fwrite (data : List Byte) (nmemb : Nat) (fp : Option FILE) : Prog (Nat × Option FILE) := fun w =>
  match fp with
  | none => Outcome.undefined w
  | some f =>
    if data.length < nmemb then Outcome.undefined w
    else
      let held := f.pending ++ data.take nmemb
      let direct := held.take (whole_blocks w.bufsize held.length)
      let k := w.takes f.path f.pos direct
      if k < direct.length then
        Outcome.ret (k - f.pending.length, some { f with pos := f.pos + k, pending := [] })
          (w.platform_write f.path f.pos direct)
      else
        Outcome.ret (nmemb, some { f with pos := f.pos + k, pending := held.drop direct.length })
          (w.platform_write f.path f.pos direct)

/-- Model of `fclose(fp)`: the bytes still in the buffer go to the platform; the
result is 0 when the platform takes them all and `EOF` when it does not. A null
stream is undefined behaviour. -/
def fclose (fp : Option FILE) : Prog Int := fun w =>
  match fp with
  | none => Outcome.undefined w
  | some f =>
    if f.pending.length = 0 then Outcome.ret 0 w
    else if w.takes f.path f.pos f.pending < f.pending.length then
      Outcome.ret EOF (w.platform_write f.path f.pos f.pending)
    else Outcome.ret 0 (w.platform_write f.path f.pos f.pending)

/-! ## Memory and indirect calls -/

/-- The state in which the `int` object at `p` holds `v`. -/
def World.set_int (w : World) (p : Ptr) (v : Int) : World :=
  { w with ints := Function.update w.ints p (some v) }

/-- The statement `*p = v` for an `int* p`: undefined behaviour when `p` does not
point to an `int` object. -/
def store_int (p : Ptr) (v : Int) : Prog Unit := fun w =>
  match w.ints p with
  | none => Outcome.undefined w
  | some _ => Outcome.ret () (w.set_int p v)

/-- The expression `*p` for an `int* p`. -/
def load_int (p : Ptr) : Prog Int := fun w =>
  match w.ints p with
  | none => Outcome.undefined w
  | some v => Outcome.ret v w

/-- The value of the static `callbacks`. -/
def get_callbacks : Prog BHRPGIO_Callbacks := fun w => Outcome.ret w.callbacks w

/-- The call `fn(size)` through a pointer of the type of the `Malloc` slot. The
call is recorded; a null pointer is undefined behaviour. -/
def call_Malloc (env : Env) (fn : FnPtr) (size : Nat) : Prog Ptr := fun w =>
  let w1 := { w with trace := w.trace ++ [Event.Malloc fn size] }
  if fn = FnPtr.null then Outcome.undefined w1
  else
    match env.Malloc fn size w1.heap with
    | some (p, h) => Outcome.ret p { w1 with heap := h }
    | none => Outcome.noreturn w1

/-- The call `fn(memory)` through a pointer of the type of the `Free` slot. -/
def call_Free (env : Env) (fn : FnPtr) (memory : Ptr) : Prog Unit := fun w =>
  let w1 := { w with trace := w.trace ++ [Event.Free fn memory] }
  if fn = FnPtr.null then Outcome.undefined w1
  else
    match env.Free fn memory w1.heap with
    | some h => Outcome.ret () { w1 with heap := h }
    | none => Outcome.noreturn w1

/-- The call `fn()` through a pointer of the type of the `NoMem` slot. The
library function `abort` never returns. -/
def call_NoMem (env : Env) (fn : FnPtr) : Prog Unit := fun w =>
  let w1 := { w with trace := w.trace ++ [Event.NoMem fn] }
  if fn = FnPtr.null then Outcome.undefined w1
  else if fn = FnPtr.abort then Outcome.noreturn w1
  else
    match env.NoMem fn w1.heap with
    | some h => Outcome.ret () { w1 with heap := h }
    | none => Outcome.noreturn w1

/-! ## The module -/

/-- The function `InitCallbacks` (bhrpg_io.c, lines 4-21); `cbacks` is the structure the
argument points to. -/
def InitCallbacks (cbacks : BHRPGIO_Callbacks) (w : World) : World :=
  let w1 :=
    if cbacks.Malloc ≠ FnPtr.null then
      { w with callbacks := { w.callbacks with Malloc := cbacks.Malloc } }
    else w
  let w2 :=
    if cbacks.Free ≠ FnPtr.null then
      { w1 with callbacks := { w1.callbacks with Free := cbacks.Free } }
    else w1
  let w3 :=
    if cbacks.NoMem ≠ FnPtr.null then
      { w2 with callbacks := { w2.callbacks with NoMem := cbacks.NoMem } }
    else w2
  w3

/-- The function `BHRPGIO_Malloc` (bhrpg_io.c, lines 60-71). -/
def BHRPGIO_Malloc (env : Env) (size : Nat) : Prog Ptr := do
  let cb ← get_callbacks
  let buf ← call_Malloc env cb.Malloc size
  if buf = NULL then
    let cb ← get_callbacks
    call_NoMem env cb.NoMem
  return buf

/-- The function `BHRPGIO_Free` (bhrpg_io.c, lines 73-77). -/
def BHRPGIO_Free (env : Env) (buf : Ptr) : Prog Unit := do
  let cb ← get_callbacks
  call_Free env cb.Free buf

/-- The function `SaveBytes` (bhrpg_io.c, lines 23-37); `data` is the byte object the
argument points to. -/
def SaveBytes (path : Path) (data : List Byte) (len : Int) : Prog Int := do
  let fp ← fopen path Mode.wb
  if fp = none then
    return -1
  else
    let (n, fp) ← fwrite data (to_size_t len) fp
    let num_written := to_int n
    let _ ← fclose fp
    return num_written

/-- The function `LoadBytes` (bhrpg_io.c, lines 39-58). -/
def LoadBytes (env : Env) (path : Path) (out_len : Ptr) : Prog Ptr := do
  let fp ← fopen path Mode.rb
  let fp ← fseek_END fp
  let pos ← ftell fp
  store_int out_len (to_int pos)
  let fp ← rewind fp
  let n ← load_int out_len
  let buf ← BHRPGIO_Malloc env (to_size_t n)
  let n ← load_int out_len
  let (_, fp) ← fread buf (to_size_t n) fp
  let _ ← fclose fp
  return buf

/-! ## Auxiliary definitions -/

/-- The count `fwrite` reports for `n` bytes written to a freshly opened stream
with a buffer of `bufsize` bytes, on a file that can hold `cap` bytes: `cap`
when the platform refuses part of the whole blocks, `n` otherwise. -/
def fwrite_count (bufsize cap n : Nat) : Nat :=
  if cap < whole_blocks bufsize n then cap else n

/-- The statements of `LoadBytes` from the call of `BHRPGIO_Malloc` on. -/
def LoadBytes_rest (env : Env) (path : Path) (out_len : Ptr) (size : Nat) : Prog Ptr := do
  let buf ← BHRPGIO_Malloc env size
  let n ← load_int out_len
  let (_, fp) ← fread buf (to_size_t n) (some { path := path, pos := 0 })
  let _ ← fclose fp
  return buf

/-! ## Observations -/

/-- The indirect calls made during a call that started in `w` and ended as `o`. -/
def new_events {α : Type} (w : World) (o : Outcome α) : List Event :=
  o.world.trace.drop w.trace.length

/-- Whether an indirect call went through the `Malloc` slot. -/
def Event.isMalloc : Event → Bool
  | Event.Malloc _ _ => true
  | _ => false

/-- Whether an indirect call went through the `NoMem` slot. -/
def Event.isNoMem : Event → Bool
  | Event.NoMem _ => true
  | _ => false

/-! ## Example state -/

/-- Example code behind the function pointers: `host 1` hands out a zeroed
block of the requested size at address 64, `host 2` is an allocator that always
fails, `host 3` is an out-of-memory handler that returns; the library `malloc`
hands out a block at address 32 and every release drops the block. -/
def env0 : Env :=
  { Malloc := fun fn size h =>
      if fn = FnPtr.host 1 then some (64, Function.update h 64 (some (List.replicate size 0)))
      else if fn = FnPtr.host 2 then some (NULL, h)
      else if fn = FnPtr.malloc then some (32, Function.update h 32 (some (List.replicate size 0)))
      else none
    Free := fun _ p h => some (Function.update h p none)
    NoMem := fun fn h => if fn = FnPtr.host 3 then some h else none }

/-- Example state: the configuration of the static initialiser, one file
"a.bin" of three bytes, three writable paths of which "full.bin" can hold only
two bytes, streams with a buffer of 4096 bytes, an empty heap and one `int`
object at address 1. -/
def w0 : World :=
  { callbacks := callbacks
    files := fun p => if p = "a.bin" then some [1, 2, 3] else none
    writable := fun p => p = "a.bin" || p = "new.bin" || p = "full.bin"
    capacity := fun p => if p = "full.bin" then 2 else 1000
    bufsize := 4096
    heap := fun _ => none
    ints := fun p => if p = 1 then some 0 else none
    trace := [] }

/-- A file of 2^31 zero bytes. -/
def big_file : List Byte := List.replicate (2 ^ 31) 0

/-- The example state with one more file, "big.bin", of 2^31 bytes. -/
def w_big : World :=
  { w0 with files := fun p => if p = "big.bin" then some big_file else w0.files p }

/-- The example state after `InitCallbacks` with the allocator that always fails
(`host 2`) and the out-of-memory handler that returns (`host 3`). -/
def w_nomem : World :=
  InitCallbacks { Malloc := FnPtr.host 2, Free := FnPtr.null, NoMem := FnPtr.host 3 } w0

/-! ## Basic facts -/

theorem bind_eq {α β : Type} (m : Prog α) (f : α → Prog β) (w : World) :
    (m >>= f) w = Prog.bind m f w := rfl

theorem pure_eq {α : Type} (a : α) (w : World) :
    (Pure.pure a : Prog α) w = Outcome.ret a w := rfl

theorem to_size_t_natCast (n : Nat) (h : (n : Int) ≤ INT_MAX) : to_size_t (n : Int) = n := by
  unfold to_size_t
  unfold INT_MAX at h
  have h1 : (n : Int) % 2 ^ 64 = n := by
    apply Int.emod_eq_of_lt <;> omega
  rw [h1]
  simp

theorem to_int_natCast (n : Nat) (h : (n : Int) ≤ INT_MAX) : to_int (n : Int) = n := by
  unfold to_int
  unfold INT_MAX at h
  have h1 : ((n : Int) + 2 ^ 31) % 2 ^ 32 = n + 2 ^ 31 := by
    apply Int.emod_eq_of_lt <;> omega
  rw [h1]
  omega

/-! ## InitCallbacks -/

/-- C1: after `InitCallbacks(c)` each of the three slots is the slot of `c` when
that is not null and the previous slot when it is null, each slot decided on
its own; nothing else of the state changes, and a candidate of three null slots
leaves the state as it was. -/
theorem InitCallbacks_merges_each_slot (c : BHRPGIO_Callbacks) (cur : World) :
    (InitCallbacks c cur).callbacks.Malloc
        = (if c.Malloc = FnPtr.null then cur.callbacks.Malloc else c.Malloc)
    ∧ (InitCallbacks c cur).callbacks.Free
        = (if c.Free = FnPtr.null then cur.callbacks.Free else c.Free)
    ∧ (InitCallbacks c cur).callbacks.NoMem
        = (if c.NoMem = FnPtr.null then cur.callbacks.NoMem else c.NoMem)
    ∧ InitCallbacks { Malloc := FnPtr.null, Free := FnPtr.null, NoMem := FnPtr.null } cur = cur
    ∧ (InitCallbacks c cur).files = cur.files
    ∧ (InitCallbacks c cur).heap = cur.heap
    ∧ (InitCallbacks c cur).ints = cur.ints
    ∧ (InitCallbacks c cur).trace = cur.trace := by
  unfold InitCallbacks
  by_cases h1 : c.Malloc = FnPtr.null <;> by_cases h2 : c.Free = FnPtr.null <;>
    by_cases h3 : c.NoMem = FnPtr.null <;> simp [h1, h2, h3]

/-! ## SaveBytes -/

theorem put_file_contents (w : World) (path : Path) (bytes : List Byte) :
    (w.put_file path bytes).contents path = bytes := by
  simp [World.put_file, World.contents]

theorem put_file_put_file (w : World) (path : Path) (a b : List Byte) :
    (w.put_file path a).put_file path b = w.put_file path b := by
  simp [World.put_file]

theorem put_file_files_same (w : World) (path : Path) (bytes : List Byte) :
    (w.put_file path bytes).files path = some bytes := by
  simp [World.put_file]

theorem put_file_files_other (w : World) (path q : Path) (bytes : List Byte) (hq : q ≠ path) :
    (w.put_file path bytes).files q = w.files q := by
  simp [World.put_file, Function.update_noteq hq]

theorem whole_blocks_le (bufsize n : Nat) : whole_blocks bufsize n ≤ n := by
  unfold whole_blocks
  split
  · exact Nat.le_refl n
  · exact Nat.sub_le _ _

/-- The platform write of the first `m` bytes of `data` to an empty file: the
file holds as many of them as it can. -/
theorem platform_write_fresh (w : World) (path : Path) (data : List Byte) (m : Nat)
    (hm : m ≤ data.length) :
    ((w.put_file path []).takes path 0 (data.take m) = min m (w.capacity path))
    ∧ (w.put_file path []).platform_write path 0 (data.take m)
        = w.put_file path (data.take (min m (w.capacity path))) := by
  have hlen : (data.take m).length = m := by
    rw [List.length_take]
    exact Nat.min_eq_left hm
  have htakes : (w.put_file path []).takes path 0 (data.take m) = min m (w.capacity path) := by
    simp only [World.takes, hlen, Nat.sub_zero]
    rfl
  refine ⟨htakes, ?_⟩
  unfold World.platform_write
  rw [htakes, put_file_contents, put_file_put_file]
  congr 1
  simp only [List.take_nil, List.drop_nil, List.nil_append, List.append_nil, List.take_take]
  congr 1
  omega

/-- The platform write of the bytes `data[m .. n)` after the first `m` bytes of
`data`, which the file holds already. -/
theorem platform_write_rest (w : World) (path : Path) (data : List Byte) (m n : Nat)
    (hmn : m ≤ n) (hn : n ≤ data.length) (hcap : m ≤ w.capacity path) :
    (w.put_file path (data.take m)).platform_write path m ((data.take n).drop m)
      = w.put_file path (data.take (min n (w.capacity path))) := by
  have hlen : ((data.take n).drop m).length = n - m := by
    rw [List.length_drop, List.length_take, Nat.min_eq_left hn]
  have htakes : (w.put_file path (data.take m)).takes path m ((data.take n).drop m)
      = min (n - m) (w.capacity path - m) := by
    simp only [World.takes, hlen]
    rfl
  have hm : (data.take m).length = m := by
    rw [List.length_take]
    exact Nat.min_eq_left (by omega)
  unfold World.platform_write
  rw [htakes, put_file_contents, put_file_put_file]
  congr 1
  have h1 : (data.take m).take m = data.take m := by
    rw [List.take_take, Nat.min_self]
  have h2 : (data.take m).drop (m + min (n - m) (w.capacity path - m)) = [] := by
    apply List.drop_eq_nil_of_le
    rw [hm]
    exact Nat.le_add_right _ _
  have h3 : ((data.take n).drop m).take (min (n - m) (w.capacity path - m))
      = (data.drop m).take (min (n - m) (w.capacity path - m)) := by
    rw [List.drop_take, List.take_take]
    congr 1
    omega
  have h4 : min n (w.capacity path) = m + min (n - m) (w.capacity path - m) := by omega
  rw [h1, h2, h3, h4, List.append_nil, List.take_add]

theorem bind_ret {α β : Type} (m : Prog α) (f : α → Prog β) (w : World) (a : α) (w1 : World)
    (h : m w = Outcome.ret a w1) : (m >>= f) w = f a w1 := by
  simp only [bind_eq, Prog.bind, h]

theorem bind_noreturn {α β : Type} (m : Prog α) (f : α → Prog β) (w w1 : World)
    (h : m w = Outcome.noreturn w1) : (m >>= f) w = Outcome.noreturn w1 := by
  simp only [bind_eq, Prog.bind, h]

theorem bind_undefined {α β : Type} (m : Prog α) (f : α → Prog β) (w w1 : World)
    (h : m w = Outcome.undefined w1) : (m >>= f) w = Outcome.undefined w1 := by
  simp only [bind_eq, Prog.bind, h]

/-- The one `fwrite` of `SaveBytes`, on the stream `fopen` has just given: when
the file cannot hold the whole blocks, the platform takes what the file can
hold and that is the count; otherwise the whole blocks are in the file, the
other bytes in the buffer, and the count is `n`. -/
theorem fwrite_fresh (w : World) (path : Path) (data : List Byte) (n : Nat)
    (hn : n ≤ data.length) :
    fwrite data n (some { path := path, pos := 0 }) (w.put_file path []) =
      if w.capacity path < whole_blocks w.bufsize n then
        Outcome.ret (w.capacity path,
            some { path := path, pos := w.capacity path, pending := [] })
          (w.put_file path (data.take (w.capacity path)))
      else
        Outcome.ret (n,
            some { path := path, pos := whole_blocks w.bufsize n,
                   pending := (data.take n).drop (whole_blocks w.bufsize n) })
          (w.put_file path (data.take (whole_blocks w.bufsize n))) := by
  have hnot : ¬ data.length < n := by omega
  have hwb := whole_blocks_le w.bufsize n
  have hheldlen : (data.take n).length = n := by
    rw [List.length_take]
    exact Nat.min_eq_left hn
  have hbs : (w.put_file path []).bufsize = w.bufsize := rfl
  have hdir : (data.take n).take (whole_blocks w.bufsize n)
      = data.take (whole_blocks w.bufsize n) := by
    rw [List.take_take, Nat.min_eq_left hwb]
  have hdirlen : (data.take (whole_blocks w.bufsize n)).length = whole_blocks w.bufsize n := by
    rw [List.length_take]
    exact Nat.min_eq_left (by omega)
  obtain ⟨htakes, hpw⟩ := platform_write_fresh w path data (whole_blocks w.bufsize n) (by omega)
  simp only [fwrite, hnot, if_false, List.nil_append, hheldlen, hbs, hdir, hdirlen, htakes, hpw]
  by_cases hc : w.capacity path < whole_blocks w.bufsize n
  · have hmin : min (whole_blocks w.bufsize n) (w.capacity path) = w.capacity path :=
      Nat.min_eq_right (Nat.le_of_lt hc)
    simp [hmin, hc]
  · have hmin : min (whole_blocks w.bufsize n) (w.capacity path) = whole_blocks w.bufsize n :=
      Nat.min_eq_left (by omega)
    simp [hmin, hc]

/-- The function `fclose` after that `fwrite` when the whole blocks went through: the bytes
of the buffer go to the platform, and the file holds as much of the data as it
can. -/
theorem fclose_after_fwrite (w : World) (path : Path) (data : List Byte) (n : Nat)
    (hn : n ≤ data.length) (hcap : whole_blocks w.bufsize n ≤ w.capacity path) :
    ∃ e, fclose (some { path := path, pos := whole_blocks w.bufsize n,
                        pending := (data.take n).drop (whole_blocks w.bufsize n) })
          (w.put_file path (data.take (whole_blocks w.bufsize n)))
      = Outcome.ret e (w.put_file path (data.take (min n (w.capacity path)))) := by
  have hwb := whole_blocks_le w.bufsize n
  have hlen : ((data.take n).drop (whole_blocks w.bufsize n)).length
      = n - whole_blocks w.bufsize n := by
    rw [List.length_drop, List.length_take, Nat.min_eq_left hn]
  have hpw := platform_write_rest w path data (whole_blocks w.bufsize n) n hwb hn hcap
  simp only [fclose, hlen, hpw]
  by_cases h0 : n - whole_blocks w.bufsize n = 0
  · have hmin : min n (w.capacity path) = whole_blocks w.bufsize n := by omega
    refine ⟨0, ?_⟩
    simp [h0, hmin]
  · simp only [h0, if_false]
    split
    · exact ⟨EOF, rfl⟩
    · exact ⟨0, rfl⟩

theorem SaveBytes_of_not_writable (path : Path) (data : List Byte) (len : Int) (w : World)
    (h : w.writable path = false) :
    SaveBytes path data len w = Outcome.ret (-1) w := by
  simp [SaveBytes, bind_eq, Prog.bind, fopen, h, pure_eq]

/-- The function `SaveBytes` on a path that opens: the result is the count of `fwrite`, and
the file ends up holding as much of the data as it can. -/
theorem SaveBytes_of_writable (path : Path) (data : List Byte) (len : Int) (w : World)
    (h : w.writable path = true) (hlen : to_size_t len ≤ data.length) :
    SaveBytes path data len w
      = Outcome.ret (to_int ((fwrite_count w.bufsize (w.capacity path) (to_size_t len) : Nat) : Int))
          (w.put_file path (data.take (min (to_size_t len) (w.capacity path)))) := by
  have h1 : fopen path Mode.wb w
      = Outcome.ret (some { path := path, pos := 0 }) (w.put_file path []) := by
    simp only [fopen, h, if_true]
  have h2 := fwrite_fresh w path data (to_size_t len) hlen
  have hwb := whole_blocks_le w.bufsize (to_size_t len)
  unfold SaveBytes
  rw [bind_ret _ _ _ _ _ h1]
  by_cases hc : w.capacity path < whole_blocks w.bufsize (to_size_t len)
  · rw [if_pos hc] at h2
    have h3 : fclose (some { path := path, pos := w.capacity path, pending := [] })
        (w.put_file path (data.take (w.capacity path)))
        = Outcome.ret 0 (w.put_file path (data.take (w.capacity path))) := rfl
    have hmin : min (to_size_t len) (w.capacity path) = w.capacity path := by omega
    simp only [reduceCtorEq, if_false]
    rw [bind_ret _ _ _ _ _ h2]
    simp only []
    rw [bind_ret _ _ _ _ _ h3, hmin]
    simp only [fwrite_count, hc, if_true, pure_eq]
  · rw [if_neg hc] at h2
    obtain ⟨e, h3⟩ := fclose_after_fwrite w path data (to_size_t len) hlen (by omega)
    simp only [reduceCtorEq, if_false]
    rw [bind_ret _ _ _ _ _ h2]
    simp only []
    rw [bind_ret _ _ _ _ _ h3]
    simp only [fwrite_count, hc, if_false, pure_eq]

theorem fwrite_count_le (bufsize cap n : Nat) : fwrite_count bufsize cap n ≤ n := by
  have := whole_blocks_le bufsize n
  unfold fwrite_count
  split <;> omega

theorem fwrite_count_of_le (bufsize cap n : Nat) (h : n ≤ cap) : fwrite_count bufsize cap n = n := by
  have := whole_blocks_le bufsize n
  unfold fwrite_count
  rw [if_neg (by omega)]

/-- C5: when the file cannot be opened for writing, `SaveBytes` returns -1 and
ends in the state it started in: no file is created, truncated or written. -/
theorem SaveBytes_open_failure (path : Path) (data : List Byte) (len : Int) (w : World)
    (h : w.writable path = false) :
    SaveBytes path data len w = Outcome.ret (-1) w
    ∧ (SaveBytes path data len w).world.files = w.files := by
  rw [SaveBytes_of_not_writable path data len w h]
  exact ⟨rfl, rfl⟩

theorem SaveBytes_open_failure_witness :
    w0.writable "no/such/dir/x.bin" = false
    ∧ SaveBytes "no/such/dir/x.bin" [7, 8] 2 w0 = Outcome.ret (-1) w0
    ∧ (SaveBytes "no/such/dir/x.bin" [7, 8] 2 w0).world.files = w0.files :=
  ⟨by decide, SaveBytes_open_failure "no/such/dir/x.bin" [7, 8] 2 w0 (by decide)⟩

/-- C7: on a path that can be opened for writing, `SaveBytes(path, data, 0)`
returns 0 for every buffer and leaves the file existing with zero length,
whether it existed before or not; no other file changes. -/
theorem SaveBytes_zero_length (path : Path) (data : List Byte) (w : World)
    (h : w.writable path = true) :
    ∃ w1, SaveBytes path data 0 w = Outcome.ret 0 w1
      ∧ w1.files path = some []
      ∧ ∀ q, q ≠ path → w1.files q = w.files q := by
  have h0 : to_size_t 0 = 0 := by simp [to_size_t]
  have hlen : to_size_t 0 ≤ data.length := by omega
  have hrun := SaveBytes_of_writable path data 0 w h hlen
  have hc : fwrite_count w.bufsize (w.capacity path) 0 = 0 :=
    Nat.le_zero.mp (fwrite_count_le _ _ _)
  have hz : to_int ((0 : Nat) : Int) = 0 := by simp [to_int]
  rw [h0, hc, hz, Nat.zero_min, List.take_zero] at hrun
  refine ⟨_, hrun, put_file_files_same _ _ _, ?_⟩
  intro q hq
  exact put_file_files_other _ _ _ _ hq

theorem SaveBytes_zero_length_witness :
    w0.writable "a.bin" = true
    ∧ w0.files "a.bin" = some [1, 2, 3]
    ∧ ∃ w1, SaveBytes "a.bin" [9, 9] 0 w0 = Outcome.ret 0 w1
      ∧ w1.files "a.bin" = some []
      ∧ ∀ q, q ≠ "a.bin" → w1.files q = w0.files q :=
  ⟨by decide, by decide, SaveBytes_zero_length "a.bin" [9, 9] w0 (by decide)⟩

theorem call_Malloc_trace (env : Env) (fn : FnPtr) (size : Nat) (w : World) :
    (call_Malloc env fn size w).world.trace = w.trace ++ [Event.Malloc fn size]
    ∧ (call_Malloc env fn size w).world.callbacks = w.callbacks
    ∧ (call_Malloc env fn size w).world.files = w.files
    ∧ (call_Malloc env fn size w).world.ints = w.ints := by
  unfold call_Malloc
  by_cases hfn : fn = FnPtr.null
  · simp [hfn, Outcome.world]
  · cases hm : env.Malloc fn size w.heap with
    | none => simp [hfn, hm, Outcome.world]
    | some r => simp [hfn, hm, Outcome.world]

theorem call_NoMem_trace (env : Env) (fn : FnPtr) (w : World) :
    (call_NoMem env fn w).world.trace = w.trace ++ [Event.NoMem fn]
    ∧ (call_NoMem env fn w).world.callbacks = w.callbacks
    ∧ (call_NoMem env fn w).world.files = w.files
    ∧ (call_NoMem env fn w).world.ints = w.ints := by
  unfold call_NoMem
  by_cases hfn : fn = FnPtr.null
  · simp [hfn, Outcome.world]
  · by_cases hab : fn = FnPtr.abort
    · simp [hab, Outcome.world]
    · cases hm : env.NoMem fn w.heap with
      | none => simp [hfn, hab, hm, Outcome.world]
      | some r => simp [hfn, hab, hm, Outcome.world]

/-- The body of `BHRPGIO_Malloc`, statement by statement. -/
theorem BHRPGIO_Malloc_eq (env : Env) (size : Nat) (w : World) :
    BHRPGIO_Malloc env size w =
      match call_Malloc env w.callbacks.Malloc size w with
      | Outcome.ret buf w1 =>
        if buf = NULL then
          match call_NoMem env w1.callbacks.NoMem w1 with
          | Outcome.ret _ w2 => Outcome.ret buf w2
          | Outcome.noreturn w2 => Outcome.noreturn w2
          | Outcome.undefined w2 => Outcome.undefined w2
        else Outcome.ret buf w1
      | Outcome.noreturn w1 => Outcome.noreturn w1
      | Outcome.undefined w1 => Outcome.undefined w1 := by
  simp only [BHRPGIO_Malloc, bind_eq, Prog.bind, get_callbacks]
  cases hc : call_Malloc env w.callbacks.Malloc size w with
  | ret buf w1 =>
    by_cases hb : buf = NULL
    · subst hb
      cases hn : call_NoMem env w1.callbacks.NoMem w1 <;>
        simp [bind_eq, Prog.bind, get_callbacks, pure_eq, hn]
    · simp [hb, bind_eq, pure_eq, Prog.bind]
  | noreturn w1 => rfl
  | undefined w1 => rfl

/-- The indirect calls of one `BHRPGIO_Malloc`: the `Malloc` slot, followed by the
`NoMem` slot exactly when the `Malloc` slot returned the null pointer. -/
theorem BHRPGIO_Malloc_new_events (env : Env) (size : Nat) (w : World) :
    new_events w (BHRPGIO_Malloc env size w) =
      if (call_Malloc env w.callbacks.Malloc size w).value = some NULL then
        [Event.Malloc w.callbacks.Malloc size, Event.NoMem w.callbacks.NoMem]
      else [Event.Malloc w.callbacks.Malloc size] := by
  have ht := call_Malloc_trace env w.callbacks.Malloc size w
  rw [BHRPGIO_Malloc_eq]
  cases hc : call_Malloc env w.callbacks.Malloc size w with
  | ret buf w1 =>
    rw [hc] at ht
    simp only [Outcome.world] at ht
    by_cases hb : buf = NULL
    · subst hb
      have hn := call_NoMem_trace env w1.callbacks.NoMem w1
      rw [ht.2.1] at hn
      cases hnm : call_NoMem env w.callbacks.NoMem w1 <;>
        · rw [hnm] at hn
          simp only [Outcome.world] at hn
          simp [new_events, Outcome.world, Outcome.value, hn.1, ht.1, ht.2.1, hnm]
    · simp [new_events, Outcome.world, Outcome.value, hb, ht.1]
  | noreturn w1 =>
    rw [hc] at ht
    simp only [Outcome.world] at ht
    simp [new_events, Outcome.world, Outcome.value, ht.1]
  | undefined w1 =>
    rw [hc] at ht
    simp only [Outcome.world] at ht
    simp [new_events, Outcome.world, Outcome.value, ht.1]

/-- The calls one `BHRPGIO_Malloc` makes through the `Malloc` slot: one, with the
size it was given. -/
theorem BHRPGIO_Malloc_calls_slot_events (env : Env) (size : Nat) (w : World) :
    (new_events w (BHRPGIO_Malloc env size w)).filter Event.isMalloc
      = [Event.Malloc w.callbacks.Malloc size] := by
  rw [BHRPGIO_Malloc_new_events]
  split <;> simp [Event.isMalloc]

/-- C2: when the configured `Malloc` slot returns the null pointer,
`BHRPGIO_Malloc(size)` calls the configured `NoMem` handler exactly once; when it
returns at all it returns the null pointer, and it does return the null pointer
when the handler returns. -/
theorem BHRPGIO_Malloc_slot_null (env : Env) (size : Nat) (w : World)
    (h : (call_Malloc env w.callbacks.Malloc size w).value = some NULL) :
    (new_events w (BHRPGIO_Malloc env size w)).filter Event.isNoMem
        = [Event.NoMem w.callbacks.NoMem]
    ∧ (∀ v, (BHRPGIO_Malloc env size w).value = some v → v = NULL)
    ∧ (∀ w1 w2, call_Malloc env w.callbacks.Malloc size w = Outcome.ret NULL w1 →
        call_NoMem env w.callbacks.NoMem w1 = Outcome.ret () w2 →
        BHRPGIO_Malloc env size w = Outcome.ret NULL w2) := by
  refine ⟨?_, ?_, ?_⟩
  · rw [BHRPGIO_Malloc_new_events, if_pos h]
    simp [Event.isNoMem]
  · intro v hv
    rw [BHRPGIO_Malloc_eq] at hv
    cases hc : call_Malloc env w.callbacks.Malloc size w with
    | ret buf w1 =>
      rw [hc] at h hv
      simp only [Outcome.value, Option.some.injEq] at h
      subst h
      simp only [if_true] at hv
      cases hn : call_NoMem env w1.callbacks.NoMem w1 <;> rw [hn] at hv <;>
        simp [Outcome.value] at hv
      exact hv.symm
    | noreturn w1 => rw [hc] at h; simp [Outcome.value] at h
    | undefined w1 => rw [hc] at h; simp [Outcome.value] at h
  · intro w1 w2 hc hn
    have ht := call_Malloc_trace env w.callbacks.Malloc size w
    rw [hc] at ht
    simp only [Outcome.world] at ht
    rw [BHRPGIO_Malloc_eq, hc]
    simp only [if_true]
    rw [ht.2.1, hn]

theorem BHRPGIO_Malloc_slot_null_witness :
    (call_Malloc env0 (InitCallbacks ⟨FnPtr.host 2, FnPtr.null, FnPtr.host 3⟩ w0).callbacks.Malloc 16
        (InitCallbacks ⟨FnPtr.host 2, FnPtr.null, FnPtr.host 3⟩ w0)).value = some NULL
    ∧ (new_events (InitCallbacks ⟨FnPtr.host 2, FnPtr.null, FnPtr.host 3⟩ w0)
          (BHRPGIO_Malloc env0 16 (InitCallbacks ⟨FnPtr.host 2, FnPtr.null, FnPtr.host 3⟩ w0))).filter
          Event.isNoMem = [Event.NoMem (FnPtr.host 3)]
    ∧ (BHRPGIO_Malloc env0 16 (InitCallbacks ⟨FnPtr.host 2, FnPtr.null, FnPtr.host 3⟩ w0)).value
        = some NULL :=
  ⟨by decide,
   (BHRPGIO_Malloc_slot_null env0 16 (InitCallbacks ⟨FnPtr.host 2, FnPtr.null, FnPtr.host 3⟩ w0)
      (by decide)).1,
   by decide⟩

/-- C10: `BHRPGIO_Malloc(size)` calls the configured `Malloc` slot exactly once, with
`size`; when the slot returns a buffer that is not null, that buffer is returned
and the `NoMem` handler is not called; the `NoMem` handler is called (once) if
and only if the slot returned the null pointer. -/
theorem BHRPGIO_Malloc_calls_slot_once (env : Env) (size : Nat) (w : World) :
    (new_events w (BHRPGIO_Malloc env size w)).filter Event.isMalloc
        = [Event.Malloc w.callbacks.Malloc size]
    ∧ (∀ buf w1, call_Malloc env w.callbacks.Malloc size w = Outcome.ret buf w1 → buf ≠ NULL →
        BHRPGIO_Malloc env size w = Outcome.ret buf w1
        ∧ (new_events w (BHRPGIO_Malloc env size w)).filter Event.isNoMem = [])
    ∧ ((new_events w (BHRPGIO_Malloc env size w)).filter Event.isNoMem
          = [Event.NoMem w.callbacks.NoMem]
        ↔ (call_Malloc env w.callbacks.Malloc size w).value = some NULL)
    ∧ ((new_events w (BHRPGIO_Malloc env size w)).filter Event.isNoMem = []
        ↔ ¬ (call_Malloc env w.callbacks.Malloc size w).value = some NULL) := by
  have hev := BHRPGIO_Malloc_new_events env size w
  by_cases hnull : (call_Malloc env w.callbacks.Malloc size w).value = some NULL
  · rw [if_pos hnull] at hev
    refine ⟨?_, ?_, ?_, ?_⟩
    · simp [hev, Event.isMalloc]
    · intro buf w1 hc hb
      rw [hc] at hnull
      simp only [Outcome.value, Option.some.injEq] at hnull
      exact absurd hnull hb
    · simp [hev, Event.isNoMem, hnull]
    · simp [hev, Event.isNoMem, hnull]
  · rw [if_neg hnull] at hev
    refine ⟨?_, ?_, ?_, ?_⟩
    · simp [hev, Event.isMalloc]
    · intro buf w1 hc hb
      refine ⟨?_, ?_⟩
      · rw [BHRPGIO_Malloc_eq, hc]
        simp [hb]
      · simp [hev, Event.isNoMem]
    · simp [hev, Event.isNoMem, hnull]
    · simp [hev, Event.isNoMem, hnull]

theorem BHRPGIO_Free_eq (env : Env) (buf : Ptr) (w : World) :
    BHRPGIO_Free env buf w = call_Free env w.callbacks.Free buf w := by
  simp [BHRPGIO_Free, bind_eq, Prog.bind, get_callbacks]

theorem call_Free_trace (env : Env) (fn : FnPtr) (memory : Ptr) (w : World) :
    (call_Free env fn memory w).world.trace = w.trace ++ [Event.Free fn memory] := by
  unfold call_Free
  by_cases hfn : fn = FnPtr.null
  · simp [hfn, Outcome.world]
  · cases hm : env.Free fn memory w.heap with
    | none => simp [hfn, hm, Outcome.world]
    | some r => simp [hfn, hm, Outcome.world]

/-- C6: from the configuration `{malloc, free, abort}` of the static initialiser,
after `InitCallbacks` with a candidate that sets only the `Malloc` slot, the
`NoMem` slot is still `abort`, the `Free` slot is still the library `free`, and
every `BHRPGIO_Free(h)` under that configuration is the call `free(h)`: the one
indirect call it makes is to `free` with the argument `h`. -/
theorem BHRPGIO_Free_after_Malloc_override (env : Env) (c : BHRPGIO_Callbacks) (w : World)
    (hw : w.callbacks = callbacks) (hM : c.Malloc ≠ FnPtr.null)
    (hF : c.Free = FnPtr.null) (hN : c.NoMem = FnPtr.null) :
    (InitCallbacks c w).callbacks
        = { Malloc := c.Malloc, Free := FnPtr.free, NoMem := FnPtr.abort }
    ∧ ∀ (w1 : World) (h : Ptr), w1.callbacks = (InitCallbacks c w).callbacks →
        BHRPGIO_Free env h w1 = call_Free env FnPtr.free h w1
        ∧ new_events w1 (BHRPGIO_Free env h w1) = [Event.Free FnPtr.free h] := by
  have hcb : (InitCallbacks c w).callbacks
      = { Malloc := c.Malloc, Free := FnPtr.free, NoMem := FnPtr.abort } := by
    simp [InitCallbacks, hM, hF, hN, hw, callbacks]
  refine ⟨hcb, ?_⟩
  intro w1 h hw1
  have hfree : w1.callbacks.Free = FnPtr.free := by rw [hw1, hcb]
  rw [BHRPGIO_Free_eq, hfree]
  refine ⟨rfl, ?_⟩
  simp [new_events, call_Free_trace]

theorem BHRPGIO_Free_after_Malloc_override_witness :
    w0.callbacks = callbacks
    ∧ (FnPtr.host 1 ≠ FnPtr.null)
    ∧ (InitCallbacks ⟨FnPtr.host 1, FnPtr.null, FnPtr.null⟩ w0).callbacks
        = { Malloc := FnPtr.host 1, Free := FnPtr.free, NoMem := FnPtr.abort }
    ∧ ∀ (w1 : World) (h : Ptr),
        w1.callbacks = (InitCallbacks ⟨FnPtr.host 1, FnPtr.null, FnPtr.null⟩ w0).callbacks →
        BHRPGIO_Free env0 h w1 = call_Free env0 FnPtr.free h w1
        ∧ new_events w1 (BHRPGIO_Free env0 h w1) = [Event.Free FnPtr.free h] :=
  ⟨rfl, by decide,
    BHRPGIO_Free_after_Malloc_override env0 ⟨FnPtr.host 1, FnPtr.null, FnPtr.null⟩ w0
      rfl (by decide) rfl rfl⟩

/-! ## LoadBytes -/

/-- What `BHRPGIO_Malloc` leaves alone: the files, the `int` objects and the
configuration. -/
theorem BHRPGIO_Malloc_frame (env : Env) (size : Nat) (w : World) :
    (BHRPGIO_Malloc env size w).world.files = w.files
    ∧ (BHRPGIO_Malloc env size w).world.ints = w.ints
    ∧ (BHRPGIO_Malloc env size w).world.callbacks = w.callbacks := by
  have ht := call_Malloc_trace env w.callbacks.Malloc size w
  rw [BHRPGIO_Malloc_eq]
  cases hc : call_Malloc env w.callbacks.Malloc size w with
  | ret buf w1 =>
    rw [hc] at ht
    simp only [Outcome.world] at ht
    by_cases hb : buf = NULL
    · subst hb
      have hn := call_NoMem_trace env w1.callbacks.NoMem w1
      cases hnm : call_NoMem env w1.callbacks.NoMem w1 <;>
        · rw [hnm] at hn
          simp only [Outcome.world] at hn
          simp only [if_true, hnm, Outcome.world]
          exact ⟨hn.2.2.1.trans ht.2.2.1, hn.2.2.2.trans ht.2.2.2, hn.2.1.trans ht.2.1⟩
    · simp [Outcome.world, hb, ht]
  | noreturn w1 =>
    rw [hc] at ht
    simp only [Outcome.world] at ht
    simp [Outcome.world, ht]
  | undefined w1 =>
    rw [hc] at ht
    simp only [Outcome.world] at ht
    simp [Outcome.world, ht]

/-- What `fread` leaves alone: everything but the heap. -/
theorem fread_frame (buf : Ptr) (nmemb : Nat) (fp : Option FILE) (w : World) :
    (fread buf nmemb fp w).world.files = w.files
    ∧ (fread buf nmemb fp w).world.ints = w.ints
    ∧ (fread buf nmemb fp w).world.callbacks = w.callbacks
    ∧ (fread buf nmemb fp w).world.trace = w.trace := by
  unfold fread
  cases fp with
  | none => simp [Outcome.world]
  | some f =>
    simp only
    split
    · simp [Outcome.world]
    · split
      · simp [Outcome.world]
      · split
        · simp [Outcome.world]
        · split <;> simp [Outcome.world]

/-- A `fread` that returns hands back a stream, not a null one, with the buffer
of the stream it was given. -/
theorem fread_ret_stream (buf : Ptr) (nmemb : Nat) (f0 : FILE) (w w1 : World)
    (r : Nat × Option FILE) (h : fread buf nmemb (some f0) w = Outcome.ret r w1) :
    ∃ f, r.2 = some f ∧ f.pending = f0.pending := by
  unfold fread at h
  simp only at h
  split at h
  · simp only [Outcome.ret.injEq] at h
    rw [← h.1]
    exact ⟨f0, rfl, rfl⟩
  · split at h
    · simp at h
    · split at h
      · simp at h
      · split at h
        · simp only [Outcome.ret.injEq] at h
          rw [← h.1]
          exact ⟨_, rfl, rfl⟩
        · simp at h

theorem set_int_same (w : World) (p : Ptr) (v : Int) : (w.set_int p v).ints p = some v := by
  simp [World.set_int]

/-- The function `LoadBytes` on a file that opens, with `out_len` pointing to an `int`: the
length of the file, converted to `int`, is stored in `*out_len`, and the rest
runs on the stored length converted to `size_t`. -/
theorem LoadBytes_opened (env : Env) (path : Path) (out_len : Ptr) (w : World)
    (c : List Byte) (hf : w.files path = some c) (hi : w.ints out_len ≠ none) :
    LoadBytes env path out_len w =
      LoadBytes_rest env path out_len (to_size_t (to_int (c.length : Int)))
        (w.set_int out_len (to_int (c.length : Int))) := by
  obtain ⟨v0, hv0⟩ := Option.ne_none_iff_exists'.mp hi
  have h1 : fopen path Mode.rb w = Outcome.ret (some { path := path, pos := 0 }) w := by
    simp only [fopen, hf]
  have h2 : fseek_END (some { path := path, pos := 0 }) w
      = Outcome.ret (some { path := path, pos := c.length }) w := by
    simp only [fseek_END, World.contents, hf, Option.getD_some]
  have h3 : ftell (some { path := path, pos := c.length }) w
      = Outcome.ret (c.length : Int) w := rfl
  have h4 : store_int out_len (to_int (c.length : Int)) w
      = Outcome.ret () (w.set_int out_len (to_int (c.length : Int))) := by
    simp only [store_int, hv0]
  have h5 : rewind (some { path := path, pos := c.length })
      (w.set_int out_len (to_int (c.length : Int)))
      = Outcome.ret (some { path := path, pos := 0 })
          (w.set_int out_len (to_int (c.length : Int))) := rfl
  have h6 : load_int out_len (w.set_int out_len (to_int (c.length : Int)))
      = Outcome.ret (to_int (c.length : Int)) (w.set_int out_len (to_int (c.length : Int))) := by
    simp only [load_int, set_int_same]
  unfold LoadBytes LoadBytes_rest
  rw [bind_ret _ _ _ _ _ h1, bind_ret _ _ _ _ _ h2, bind_ret _ _ _ _ _ h3,
    bind_ret _ _ _ _ _ h4, bind_ret _ _ _ _ _ h5, bind_ret _ _ _ _ _ h6]

/-- The rest of `LoadBytes` when `BHRPGIO_Malloc` returns `buf`: `fread` fills
`buf` with what `*out_len` says, and `buf` is the result. -/
theorem LoadBytes_rest_ret (env : Env) (path : Path) (out_len : Ptr) (size : Nat) (w : World)
    (buf : Ptr) (w2 : World) (v : Int)
    (hm : BHRPGIO_Malloc env size w = Outcome.ret buf w2) (hv : w.ints out_len = some v) :
    LoadBytes_rest env path out_len size w =
      match fread buf (to_size_t v) (some { path := path, pos := 0 }) w2 with
      | Outcome.ret _ w3 => Outcome.ret buf w3
      | Outcome.noreturn w3 => Outcome.noreturn w3
      | Outcome.undefined w3 => Outcome.undefined w3 := by
  have hfr := (BHRPGIO_Malloc_frame env size w).2.1
  rw [hm] at hfr
  have hi2 : w2.ints out_len = some v := by
    have : w2.ints = w.ints := hfr
    rw [this, hv]
  have h7 : load_int out_len w2 = Outcome.ret v w2 := by
    simp only [load_int, hi2]
  unfold LoadBytes_rest
  rw [bind_ret _ _ _ _ _ hm, bind_ret _ _ _ _ _ h7]
  cases hr : fread buf (to_size_t v) (some { path := path, pos := 0 }) w2 with
  | ret r w3 =>
    obtain ⟨f, hf, hp⟩ := fread_ret_stream _ _ _ _ _ _ hr
    rw [bind_ret _ _ _ _ _ hr]
    obtain ⟨n, fp⟩ := r
    simp only at hf
    subst hf
    have hclose : fclose (some f) w3 = Outcome.ret 0 w3 := by
      simp only [fclose, hp, List.length_nil, if_true]
    simp only []
    rw [bind_ret _ _ _ _ _ hclose]
    rfl
  | noreturn w3 => rw [bind_noreturn _ _ _ _ hr]
  | undefined w3 => rw [bind_undefined _ _ _ _ hr]

theorem LoadBytes_rest_noreturn (env : Env) (path : Path) (out_len : Ptr) (size : Nat)
    (w w2 : World) (hm : BHRPGIO_Malloc env size w = Outcome.noreturn w2) :
    LoadBytes_rest env path out_len size w = Outcome.noreturn w2 := by
  unfold LoadBytes_rest
  rw [bind_noreturn _ _ _ _ hm]

theorem LoadBytes_rest_undefined (env : Env) (path : Path) (out_len : Ptr) (size : Nat)
    (w w2 : World) (hm : BHRPGIO_Malloc env size w = Outcome.undefined w2) :
    LoadBytes_rest env path out_len size w = Outcome.undefined w2 := by
  unfold LoadBytes_rest
  rw [bind_undefined _ _ _ _ hm]

/-- The function `LoadBytes` on a path that does not open: `fseek` is called on the null
stream. -/
theorem LoadBytes_unopened (env : Env) (path : Path) (out_len : Ptr) (w : World)
    (hf : w.files path = none) :
    LoadBytes env path out_len w = Outcome.undefined w := by
  have h1 : fopen path Mode.rb w = Outcome.ret none w := by
    simp only [fopen, hf]
  have h2 : fseek_END none w = Outcome.undefined w := rfl
  unfold LoadBytes
  rw [bind_ret _ _ _ _ _ h1, bind_undefined _ _ _ _ h2]

/-- The rest of `LoadBytes` ends with the trace, the `int` objects and the files
that its `BHRPGIO_Malloc` ended with. -/
theorem LoadBytes_rest_world (env : Env) (path : Path) (out_len : Ptr) (size : Nat) (w : World)
    (v : Int) (hv : w.ints out_len = some v) :
    (LoadBytes_rest env path out_len size w).world.trace
        = (BHRPGIO_Malloc env size w).world.trace
    ∧ (LoadBytes_rest env path out_len size w).world.ints
        = (BHRPGIO_Malloc env size w).world.ints
    ∧ (LoadBytes_rest env path out_len size w).world.files
        = (BHRPGIO_Malloc env size w).world.files := by
  cases hm : BHRPGIO_Malloc env size w with
  | ret buf w2 =>
    rw [LoadBytes_rest_ret env path out_len size w buf w2 v hm hv]
    have hfr := fread_frame buf (to_size_t v) (some { path := path, pos := 0 }) w2
    cases hr : fread buf (to_size_t v) (some { path := path, pos := 0 }) w2 with
    | ret r w3 =>
      rw [hr] at hfr
      exact ⟨hfr.2.2.2, hfr.2.1, hfr.1⟩
    | noreturn w3 =>
      rw [hr] at hfr
      exact ⟨hfr.2.2.2, hfr.2.1, hfr.1⟩
    | undefined w3 =>
      rw [hr] at hfr
      exact ⟨hfr.2.2.2, hfr.2.1, hfr.1⟩
  | noreturn w2 =>
    rw [LoadBytes_rest_noreturn env path out_len size w w2 hm]
    exact ⟨rfl, rfl, rfl⟩
  | undefined w2 =>
    rw [LoadBytes_rest_undefined env path out_len size w w2 hm]
    exact ⟨rfl, rfl, rfl⟩

/-- What `LoadBytes` stores in `*out_len` on a file that opens: the length of the
file converted to `int`. -/
theorem LoadBytes_out_len (env : Env) (path : Path) (out_len : Ptr) (w : World)
    (c : List Byte) (hf : w.files path = some c) (hi : w.ints out_len ≠ none) :
    (LoadBytes env path out_len w).world.ints out_len = some (to_int (c.length : Int)) := by
  rw [LoadBytes_opened env path out_len w c hf hi]
  have hv := set_int_same w out_len (to_int (c.length : Int))
  rw [(LoadBytes_rest_world env path out_len _ _ _ hv).2.1,
    (BHRPGIO_Malloc_frame env _ _).2.1]
  exact hv

/-- The calls `LoadBytes` makes through the `Malloc` slot on a file that opens:
one, with the stored length converted to `size_t`. -/
theorem LoadBytes_malloc_events (env : Env) (path : Path) (out_len : Ptr) (w : World)
    (c : List Byte) (hf : w.files path = some c) (hi : w.ints out_len ≠ none) :
    (new_events w (LoadBytes env path out_len w)).filter Event.isMalloc
      = [Event.Malloc w.callbacks.Malloc (to_size_t (to_int (c.length : Int)))] := by
  rw [LoadBytes_opened env path out_len w c hf hi]
  have hv := set_int_same w out_len (to_int (c.length : Int))
  have h1 := (BHRPGIO_Malloc_calls_slot_events env (to_size_t (to_int (c.length : Int)))
    (w.set_int out_len (to_int (c.length : Int))))
  unfold new_events at h1 ⊢
  rw [(LoadBytes_rest_world env path out_len _ _ _ hv).1]
  exact h1

/-- A `fread` of a whole file into a block with room for it. -/
theorem fread_whole (buf : Ptr) (path : Path) (w : World) (c blk : List Byte)
    (hf : w.files path = some c) (hb : buf ≠ NULL) (hh : w.heap buf = some blk)
    (hlen : c.length ≤ blk.length) :
    ∃ r w3, fread buf c.length (some { path := path, pos := 0 }) w = Outcome.ret r w3
      ∧ w3.heap buf = some (c ++ blk.drop c.length) := by
  by_cases hc : c.length = 0
  · have hnil : c = [] := List.length_eq_zero.mp hc
    subst hnil
    refine ⟨(0, some { path := path, pos := 0 }), w, ?_, ?_⟩
    · simp [fread, World.contents, hf]
    · simpa using hh
  · refine ⟨(c.length, some { path := path, pos := 0 + c.length }),
      { w with heap := Function.update w.heap buf (some (c ++ blk.drop c.length)) }, ?_, ?_⟩
    · simp [fread, World.contents, hf, hc, hb, hh, hlen]
    · simp

/-- The function `LoadBytes` on a file of at most `INT_MAX` bytes that opens: the rest runs on
the very length of the file. -/
theorem LoadBytes_opened_small (env : Env) (path : Path) (out_len : Ptr) (w : World)
    (c : List Byte) (hf : w.files path = some c) (hn : (c.length : Int) ≤ INT_MAX)
    (hi : w.ints out_len ≠ none) :
    LoadBytes env path out_len w =
      LoadBytes_rest env path out_len c.length (w.set_int out_len (c.length : Int)) := by
  rw [LoadBytes_opened env path out_len w c hf hi, to_int_natCast _ hn, to_size_t_natCast _ hn]

/-- When `LoadBytes` returns, it returns what its `BHRPGIO_Malloc` returned. -/
theorem LoadBytes_value (env : Env) (path : Path) (out_len : Ptr) (w : World)
    (c : List Byte) (hf : w.files path = some c) (hn : (c.length : Int) ≤ INT_MAX)
    (hi : w.ints out_len ≠ none) (buf : Ptr) (w2 : World)
    (hm : BHRPGIO_Malloc env c.length (w.set_int out_len (c.length : Int)) = Outcome.ret buf w2)
    (v : Ptr) (hv : (LoadBytes env path out_len w).value = some v) : v = buf := by
  rw [LoadBytes_opened_small env path out_len w c hf hn hi,
    LoadBytes_rest_ret env path out_len _ _ buf w2 _ hm (set_int_same _ _ _)] at hv
  cases hr : fread buf (to_size_t (c.length : Int)) (some { path := path, pos := 0 }) w2 with
  | ret r w3 =>
    rw [hr] at hv
    simp only [Outcome.value, Option.some.injEq] at hv
    exact hv.symm
  | noreturn w3 =>
    rw [hr] at hv
    simp only [Outcome.value] at hv
    cases hv
  | undefined w3 =>
    rw [hr] at hv
    simp only [Outcome.value] at hv
    cases hv

/-- The function `LoadBytes` returns the buffer of its `BHRPGIO_Malloc`, filled with the file,
when that buffer is a block with room for the file. -/
theorem LoadBytes_success (env : Env) (path : Path) (out_len : Ptr) (w : World)
    (c : List Byte) (hf : w.files path = some c) (hn : (c.length : Int) ≤ INT_MAX)
    (hi : w.ints out_len ≠ none) (buf : Ptr) (w2 : World) (blk : List Byte)
    (hm : BHRPGIO_Malloc env c.length (w.set_int out_len (c.length : Int)) = Outcome.ret buf w2)
    (hb : buf ≠ NULL) (hh : w2.heap buf = some blk) (hlen : c.length ≤ blk.length) :
    ∃ w3, LoadBytes env path out_len w = Outcome.ret buf w3
      ∧ w3.heap buf = some (c ++ blk.drop c.length)
      ∧ w3.ints out_len = some (c.length : Int) := by
  have hfr := BHRPGIO_Malloc_frame env c.length (w.set_int out_len (c.length : Int))
  rw [hm] at hfr
  have hf2 : w2.files path = some c := by
    have : w2.files = (w.set_int out_len (c.length : Int)).files := hfr.1
    rw [this]
    exact hf
  have hi2 : w2.ints out_len = some (c.length : Int) := by
    have : w2.ints = (w.set_int out_len (c.length : Int)).ints := hfr.2.1
    rw [this]
    exact set_int_same _ _ _
  obtain ⟨r, w3, hr, hheap⟩ := fread_whole buf path w2 c blk hf2 hb hh hlen
  have hfr3 := fread_frame buf c.length (some { path := path, pos := 0 }) w2
  rw [hr] at hfr3
  refine ⟨w3, ?_, hheap, ?_⟩
  · rw [LoadBytes_opened_small env path out_len w c hf hn hi,
      LoadBytes_rest_ret env path out_len _ _ buf w2 _ hm (set_int_same _ _ _),
      to_size_t_natCast _ hn, hr]
  · have : w3.ints = w2.ints := hfr3.2.1
    rw [this]
    exact hi2

/-- The function `BHRPGIO_Malloc` when the configured slot hands out a buffer. -/
theorem BHRPGIO_Malloc_of_slot_success (env : Env) (size : Nat) (w : World) (buf : Ptr)
    (h : Heap) (hfn : w.callbacks.Malloc ≠ FnPtr.null)
    (hm : env.Malloc w.callbacks.Malloc size w.heap = some (buf, h)) (hb : buf ≠ NULL) :
    BHRPGIO_Malloc env size w
      = Outcome.ret buf
          { w with trace := w.trace ++ [Event.Malloc w.callbacks.Malloc size], heap := h } := by
  rw [BHRPGIO_Malloc_eq]
  simp [call_Malloc, hfn, hm, hb]

/-- C3 (the code at a path that does not open): `LoadBytes` does not return the
null buffer with length -1. It passes the null stream to `fseek`, which is
undefined behaviour; `*out_len` still holds what it held before the call. -/
theorem LoadBytes_missing_file :
    w0.files "missing.bin" = none
    ∧ LoadBytes env0 "missing.bin" 1 w0 = Outcome.undefined w0
    ∧ (LoadBytes env0 "missing.bin" 1 w0).value = none
    ∧ (LoadBytes env0 "missing.bin" 1 w0).world.ints 1 = some 0 := by
  have hf : w0.files "missing.bin" = none := by decide
  have h := LoadBytes_unopened env0 "missing.bin" 1 w0 hf
  refine ⟨hf, h, ?_, ?_⟩
  · rw [h]
    rfl
  · rw [h]
    rfl

/-- C9 (as amended): for a file of `n ≤ INT_MAX` bytes that opens, and `out_len`
pointing to an `int`, `LoadBytes` makes exactly one call through the configured
`Malloc` slot, with size `n` (the call of `BHRPGIO_Malloc(n)`), and stores `n` in
`*out_len`. When `BHRPGIO_Malloc` returns a buffer that is not null, a block of at
least the `n` bytes asked for, `LoadBytes` returns that same buffer, holding the
bytes of the file. Whenever `LoadBytes` returns, it returns the buffer
`BHRPGIO_Malloc` returned, and when `BHRPGIO_Malloc` does not return, `LoadBytes`
does not either. Nothing is said of a null buffer for `n > 0`. -/
theorem LoadBytes_allocates_file_length (env : Env) (path : Path) (out_len : Ptr) (w : World)
    (c : List Byte) (hf : w.files path = some c) (hn : (c.length : Int) ≤ INT_MAX)
    (hi : w.ints out_len ≠ none) :
    (new_events w (LoadBytes env path out_len w)).filter Event.isMalloc
        = [Event.Malloc w.callbacks.Malloc c.length]
    ∧ (LoadBytes env path out_len w).world.ints out_len = some (c.length : Int)
    ∧ (∀ buf w2,
        BHRPGIO_Malloc env c.length (w.set_int out_len (c.length : Int)) = Outcome.ret buf w2 →
        (∀ v, (LoadBytes env path out_len w).value = some v → v = buf)
        ∧ (∀ blk, buf ≠ NULL → w2.heap buf = some blk → c.length ≤ blk.length →
            ∃ w3, LoadBytes env path out_len w = Outcome.ret buf w3
              ∧ w3.heap buf = some (c ++ blk.drop c.length)
              ∧ w3.ints out_len = some (c.length : Int)))
    ∧ (∀ w2,
        BHRPGIO_Malloc env c.length (w.set_int out_len (c.length : Int)) = Outcome.noreturn w2 →
        LoadBytes env path out_len w = Outcome.noreturn w2) := by
  refine ⟨?_, ?_, ?_, ?_⟩
  · have h := LoadBytes_malloc_events env path out_len w c hf hi
    rw [to_int_natCast _ hn, to_size_t_natCast _ hn] at h
    exact h
  · have h := LoadBytes_out_len env path out_len w c hf hi
    rw [to_int_natCast _ hn] at h
    exact h
  · intro buf w2 hm
    refine ⟨?_, ?_⟩
    · intro v hv
      exact LoadBytes_value env path out_len w c hf hn hi buf w2 hm v hv
    · intro blk hb hh hlen
      exact LoadBytes_success env path out_len w c hf hn hi buf w2 blk hm hb hh hlen
  · intro w2 hm
    rw [LoadBytes_opened_small env path out_len w c hf hn hi,
      LoadBytes_rest_noreturn env path out_len _ _ w2 hm]

theorem LoadBytes_allocates_file_length_witness :
    w0.files "a.bin" = some [1, 2, 3]
    ∧ ((([1, 2, 3] : List Byte).length : Nat) : Int) ≤ INT_MAX
    ∧ w0.ints 1 ≠ none
    ∧ (new_events w0 (LoadBytes env0 "a.bin" 1 w0)).filter Event.isMalloc
        = [Event.Malloc w0.callbacks.Malloc ([1, 2, 3] : List Byte).length]
    ∧ (LoadBytes env0 "a.bin" 1 w0).world.ints 1
        = some ((([1, 2, 3] : List Byte).length : Nat) : Int)
    ∧ ∃ w3, LoadBytes env0 "a.bin" 1 w0 = Outcome.ret 32 w3
        ∧ w3.heap 32 = some ([1, 2, 3] ++ (List.replicate 3 0).drop ([1, 2, 3] : List Byte).length)
        ∧ w3.ints 1 = some ((([1, 2, 3] : List Byte).length : Nat) : Int) :=
  ⟨by decide, by decide, by decide,
    (LoadBytes_allocates_file_length env0 "a.bin" 1 w0 [1, 2, 3]
      (by decide) (by decide) (by decide)).1,
    (LoadBytes_allocates_file_length env0 "a.bin" 1 w0 [1, 2, 3]
      (by decide) (by decide) (by decide)).2.1,
    ((LoadBytes_allocates_file_length env0 "a.bin" 1 w0 [1, 2, 3]
      (by decide) (by decide) (by decide)).2.2.1 32 _ rfl).2
        (List.replicate 3 0) (by decide) rfl (by decide)⟩

theorem big_file_length : big_file.length = 2 ^ 31 := by
  unfold big_file
  exact List.length_replicate _ _

theorem to_int_two_pow_31 : to_int (((2 ^ 31 : Nat)) : Int) = -(2 ^ 31) := by
  unfold to_int
  norm_num

theorem to_size_t_neg_two_pow_31 : to_size_t (-(2 ^ 31)) = 2 ^ 64 - 2 ^ 31 := by
  unfold to_size_t
  norm_num
  rfl

/-- C9 (counterexample to the claim as stated), at two inputs. On the openable
file "big.bin" of 2^31 bytes `LoadBytes` stores -2^31 in `*out_len`, not the
length of the file, and calls the `Malloc` slot with size 2^64 - 2^31, not with
the length of the file. On the openable file "a.bin" of 3 bytes, with an
allocator that fails and an out-of-memory handler that returns, `BHRPGIO_Malloc`
returns the null buffer and `LoadBytes` does not return it: `fread` is given the
null buffer for 3 bytes, which is undefined behaviour. -/
theorem LoadBytes_big_file_or_null_buffer :
    (w_big.files "big.bin" = some big_file
      ∧ big_file.length = 2 ^ 31
      ∧ (LoadBytes env0 "big.bin" 1 w_big).world.ints 1 = some (-(2 ^ 31))
      ∧ (LoadBytes env0 "big.bin" 1 w_big).world.ints 1 ≠ some (big_file.length : Int)
      ∧ (new_events w_big (LoadBytes env0 "big.bin" 1 w_big)).filter Event.isMalloc
          = [Event.Malloc FnPtr.malloc (2 ^ 64 - 2 ^ 31)]
      ∧ (new_events w_big (LoadBytes env0 "big.bin" 1 w_big)).filter Event.isMalloc
          ≠ [Event.Malloc FnPtr.malloc big_file.length])
    ∧ (w_nomem.files "a.bin" = some [1, 2, 3]
      ∧ (∃ w2, BHRPGIO_Malloc env0 ([1, 2, 3] : List Byte).length
            (w_nomem.set_int 1 (([1, 2, 3] : List Byte).length : Int)) = Outcome.ret NULL w2
          ∧ LoadBytes env0 "a.bin" 1 w_nomem = Outcome.undefined w2)
      ∧ (LoadBytes env0 "a.bin" 1 w_nomem).value = none) := by
  have hf : w_big.files "big.bin" = some big_file := rfl
  have hi : w_big.ints 1 ≠ none := by decide
  have h1 := LoadBytes_out_len env0 "big.bin" 1 w_big big_file hf hi
  have h2 := LoadBytes_malloc_events env0 "big.bin" 1 w_big big_file hf hi
  rw [big_file_length, to_int_two_pow_31] at h1
  rw [big_file_length, to_int_two_pow_31, to_size_t_neg_two_pow_31] at h2
  have hcb : w_big.callbacks.Malloc = FnPtr.malloc := rfl
  rw [hcb] at h2
  have hfa : w_nomem.files "a.bin" = some [1, 2, 3] := by decide
  have hia : w_nomem.ints 1 ≠ none := by decide
  have hna : ((([1, 2, 3] : List Byte).length : Nat) : Int) ≤ INT_MAX := by decide
  obtain ⟨w2, hm⟩ : ∃ w2, BHRPGIO_Malloc env0 ([1, 2, 3] : List Byte).length
      (w_nomem.set_int 1 (([1, 2, 3] : List Byte).length : Int)) = Outcome.ret NULL w2 :=
    ⟨_, rfl⟩
  have hfr := (BHRPGIO_Malloc_frame env0 ([1, 2, 3] : List Byte).length
    (w_nomem.set_int 1 (([1, 2, 3] : List Byte).length : Int))).1
  rw [hm] at hfr
  have hf2 : w2.files "a.bin" = some [1, 2, 3] := by
    have : w2.files = (w_nomem.set_int 1 (([1, 2, 3] : List Byte).length : Int)).files := hfr
    rw [this]
    exact hfa
  have hread : fread NULL ([1, 2, 3] : List Byte).length (some { path := "a.bin", pos := 0 }) w2
      = Outcome.undefined w2 := by
    simp [fread, World.contents, hf2]
  have hload : LoadBytes env0 "a.bin" 1 w_nomem = Outcome.undefined w2 := by
    rw [LoadBytes_opened_small env0 "a.bin" 1 w_nomem [1, 2, 3] hfa hna hia,
      LoadBytes_rest_ret env0 "a.bin" 1 _ _ NULL w2 _ hm (set_int_same _ _ _),
      to_size_t_natCast _ hna, hread]
  refine ⟨⟨hf, big_file_length, h1, ?_, h2, ?_⟩, hfa, ⟨w2, hm, hload⟩, ?_⟩
  · rw [h1, big_file_length]
    norm_num
  · rw [h2, big_file_length]
    norm_num
  · rw [hload]
    rfl

/-- C4: for a byte sequence `B` (of at most `INT_MAX` bytes, as the `int len` of
`SaveBytes` requires) and a path `P` that opens for writing and takes all of `B`,
with a `Malloc` slot that hands out a block with room for `B`:
`SaveBytes(P, B, len B)` returns `len B`, and `LoadBytes(P, out_len)` after it
returns a buffer whose first `len B` bytes are `B` and stores `len B` in
`*out_len`. -/
theorem SaveBytes_LoadBytes_round_trip (env : Env) (P : Path) (B : List Byte) (out_len : Ptr)
    (w : World) (buf : Ptr) (h : Heap) (blk : List Byte)
    (hB : (B.length : Int) ≤ INT_MAX)
    (hw : w.writable P = true) (hcap : B.length ≤ w.capacity P)
    (hi : w.ints out_len ≠ none)
    (hfn : w.callbacks.Malloc ≠ FnPtr.null)
    (hm : env.Malloc w.callbacks.Malloc B.length w.heap = some (buf, h))
    (hb : buf ≠ NULL) (hh : h buf = some blk) (hroom : B.length ≤ blk.length) :
    ∃ w1 w2, SaveBytes P B (B.length : Int) w = Outcome.ret (B.length : Int) w1
      ∧ LoadBytes env P out_len w1 = Outcome.ret buf w2
      ∧ (w2.heap buf).map (List.take B.length) = some B
      ∧ w2.ints out_len = some (B.length : Int) := by
  have hsave := SaveBytes_of_writable P B (B.length : Int) w hw
    (by rw [to_size_t_natCast _ hB])
  rw [to_size_t_natCast _ hB, fwrite_count_of_le _ _ _ hcap, Nat.min_eq_left hcap,
    to_int_natCast _ hB, List.take_length] at hsave
  have hf1 : (w.put_file P B).files P = some B := put_file_files_same _ _ _
  have hi1 : (w.put_file P B).ints out_len ≠ none := hi
  have hmalloc := BHRPGIO_Malloc_of_slot_success env B.length
    ((w.put_file P B).set_int out_len (B.length : Int)) buf h hfn hm hb
  obtain ⟨w3, hload, hheap, hint⟩ := LoadBytes_success env P out_len (w.put_file P B) B
    hf1 hB hi1 buf _ blk hmalloc hb hh hroom
  refine ⟨_, w3, hsave, hload, ?_, hint⟩
  rw [hheap]
  simp

theorem SaveBytes_LoadBytes_round_trip_witness :
    ((([4, 5, 6] : List Byte).length : Nat) : Int) ≤ INT_MAX
    ∧ w0.writable "new.bin" = true
    ∧ ([4, 5, 6] : List Byte).length ≤ w0.capacity "new.bin"
    ∧ w0.files "new.bin" = none
    ∧ ∃ w1 w2, SaveBytes "new.bin" [4, 5, 6] (([4, 5, 6] : List Byte).length : Int) w0
          = Outcome.ret (([4, 5, 6] : List Byte).length : Int) w1
      ∧ LoadBytes env0 "new.bin" 1 w1 = Outcome.ret 32 w2
      ∧ (w2.heap 32).map (List.take ([4, 5, 6] : List Byte).length) = some [4, 5, 6]
      ∧ w2.ints 1 = some (([4, 5, 6] : List Byte).length : Int) :=
  ⟨by decide, by decide, by decide, by decide,
    SaveBytes_LoadBytes_round_trip env0 "new.bin" [4, 5, 6] 1 w0 32
      (Function.update w0.heap 32 (some (List.replicate 3 0))) (List.replicate 3 0)
      (by decide) (by decide) (by decide) (by decide) (by decide) rfl (by decide)
      (by simp) (by decide)⟩

end BhrpgIo
